import Mathlib

/-!
Todo server (`main.go`): store, handlers and their properties

A shallow embedding of `src/main.go`.

Conventions of the embedding.

* A Go `string` is a sequence of bytes.  It is embedded as a Lean `String`
  whose characters stand for the bytes, so `len(s)` is `s.length` and
  `s[:8]` is the first eight characters.
* The SQLite table `todos` is a list of rows (in insertion order) together
  with the `sqlite_sequence` counter kept for an `AUTOINCREMENT` key.  Each
  of the four SQL statements of the program is one function on that state.
  A rowid is a signed 64-bit integer: once the largest rowid `2^63 - 1` was
  handed out, the `INSERT` fails with `SQLITE_FULL` and writes nothing.  No
  other statement fails.
* `int` is 64 bits wide (`strconv.IntSize = 64`).
* A handler is a function of the store and of the request; it returns the
  new store and what it wrote to the `http.ResponseWriter`, or the run-time
  panic that ended it.  The random bytes `crypto/rand` hands to a request are
  an input of the request.
-/

namespace TodoServer

/-! ## Data model -/

/-- The Go type `Todo` (lines 18-22). -/
structure Todo where
  ID : Int
  Description : String
  Completed : Bool
  deriving DecidableEq, Repr

/-- One row of the table `todos` (lines 94-99). -/
structure Row where
  id : Int
  user_id : String
  description : String
  completed : Bool
  deriving DecidableEq, Repr

/-- The database: the rows of `todos` and the `sqlite_sequence` entry of the
table (the largest rowid ever handed out). -/
structure DB where
  rows : List Row
  seq : Int
  deriving DecidableEq, Repr

/-- The database right after `init` ran on a fresh file. -/
def DB.empty : DB := { rows := [], seq := 0 }

/-- The `PRIMARY KEY` constraint of the column `id`: no two rows share an id. -/
def PrimaryKey (db : DB) : Prop := (db.rows.map Row.id).Nodup

instance (db : DB) : Decidable (PrimaryKey db) := by
  unfold PrimaryKey; infer_instance

/-! ## The SQL statements -/

/-- The largest rowid present in the table (0 for an empty table). -/
def maxRowid : List Row → Int
  | [] => 0
  | row :: rest => max row.id (maxRowid rest)

/-- The rowid `AUTOINCREMENT` gives to the next inserted row: one more than
the largest rowid that ever existed in the table. -/
def nextRowid (db : DB) : Int := max db.seq (maxRowid db.rows) + 1

/-- The statement `INSERT INTO todos (user_id, description) VALUES (?, ?)` (line 162);
`completed` takes its default 0.  Returns the new store and the id of the
inserted row.  When the next rowid would exceed `2^63 - 1` the statement fails
with `SQLITE_FULL`: the store is unchanged and there is no result (`none`
stands for the nil `sql.Result` that `db.Exec` returns with its error). -/
def execInsert (db : DB) (userID description : String) : DB × Option Int :=
  let id := nextRowid db
  if id > 2 ^ 63 - 1 then (db, none)
  else
    ({ rows := db.rows ++ [{ id := id, user_id := userID, description := description,
                             completed := false }],
       seq := id }, some id)

/-- The `WHERE id = ? AND user_id = ?` clause of lines 193 and 197. -/
def matchesRow (id : Int) (userID : String) (row : Row) : Bool :=
  decide (row.id = id) && decide (row.user_id = userID)

/-- The statement `UPDATE todos SET completed = NOT completed WHERE id = ? AND user_id = ?`
(line 193).  Returns the new store and `RowsAffected()`. -/
def execToggle (db : DB) (id : Int) (userID : String) : DB × Nat :=
  ({ db with rows := db.rows.map fun row =>
        if matchesRow id userID row then { row with completed := !row.completed } else row },
   (db.rows.filter (matchesRow id userID)).length)

/-- The statement `DELETE FROM todos WHERE id = ? AND user_id = ?` (line 197).  Returns the
new store and `RowsAffected()`. -/
def execDelete (db : DB) (id : Int) (userID : String) : DB × Nat :=
  ({ db with rows := db.rows.filter fun row => !matchesRow id userID row },
   (db.rows.filter (matchesRow id userID)).length)

/-- The order of `ORDER BY id`. -/
def rowLE (a b : Row) : Prop := a.id ≤ b.id

instance : DecidableRel rowLE := fun a b => by unfold rowLE; infer_instance

instance : IsTotal Row rowLE := ⟨fun a b => Int.le_total a.id b.id⟩

instance : IsTrans Row rowLE := ⟨fun _ _ _ h₁ h₂ => Int.le_trans h₁ h₂⟩

instance : IsAntisymm Todo (fun a b => a.ID < b.ID) :=
  ⟨fun _ _ h₁ h₂ => absurd h₁ (not_lt_of_gt h₂)⟩

/-- The query `SELECT id, description, completed FROM todos WHERE user_id = ? ORDER BY id`
(line 215): the selected rows, in the order of the result set. -/
def querySelect (db : DB) (userID : String) : List Row :=
  (db.rows.filter fun row => decide (row.user_id = userID)).insertionSort rowLE

/-- What `rows.Scan(&t.ID, &t.Description, &t.Completed)` stores in `t`. -/
def scanRow (row : Row) : Todo :=
  { ID := row.id, Description := row.description, Completed := row.completed }

/-- The function `getTodos` (lines 214-225). -/
def getTodos (db : DB) (userID : String) : List Todo :=
  (querySelect db userID).map scanRow

/-! ## Requests and responses -/

/-- What the handlers read of an `*http.Request`. -/
structure Request where
  /-- the field `r.Method` -/
  Method : String
  /-- the field `r.URL.Path` -/
  Path : String
  /-- the value `r.URL.Query().Get("agent")` -/
  agent : String
  /-- the value of the cookie `user_id`; `none` when `r.Cookie` returns an error -/
  cookie : Option String
  /-- the value `r.FormValue("description")` -/
  description : String
  /-- the bytes `rand.Read` delivers while this request is handled -/
  rand : List Nat
  deriving DecidableEq, Repr

/-- The JSON objects the handlers marshal (the envelopes of agent mode). -/
inductive Envelope where
  /-- the object `{"count": len(todos), "todos": todos}` -/
  | list (todos : List Todo) (count : Nat)
  /-- the object `{"created": todo, "success": success}` -/
  | created (todo : Todo) (success : Bool)
  /-- the object `{"action": action, "id": id, "success": success}` -/
  | action (action : String) (id : Int) (success : Bool)
  deriving DecidableEq, Repr

/-- What a handler writes to the `http.ResponseWriter`. -/
inductive Body where
  /-- the call `fmt.Fprintf(w, agentResponseHTML, data)` -/
  | agent (data : Envelope)
  /-- the call `http.Redirect(w, r, "/", http.StatusSeeOther)`: status 303 with
  `Location: /`; `contentType` tells whether the header
  `Content-Type: text/html; charset=utf-8` was set and `htmlBody` whether the
  short HTML body with the link was written -/
  | redirect (contentType htmlBody : Bool)
  /-- the call `http.Error(w, "Invalid path", http.StatusBadRequest)` -/
  | invalidPath
  /-- the template `pageHTML` executed with `UserID` and `Todos` -/
  | page (userID : String) (todos : List Todo)
  /-- nothing written -/
  | nothing
  deriving DecidableEq, Repr

/-- A response: the cookie set by `getUserID`, if any, and the body. -/
structure Response where
  setCookie : Option String
  body : Body
  deriving DecidableEq, Repr

/-- A run-time panic of a handler. -/
inductive Panic where
  /-- slice bounds out of range `[:hi]` with length `len` -/
  | sliceBounds (hi len : Nat)
  /-- nil pointer dereference: a method called on the nil `sql.Result` -/
  | nilResult
  deriving DecidableEq, Repr

/-! ## Library functions used by the handlers -/

/-- The table `hextable` of `encoding/hex`. -/
def hextable : List Char := "0123456789abcdef".data

/-- The function `hex.EncodeToString`: two digits per byte. -/
def hexEncode (bytes : List Nat) : String :=
  String.mk (bytes.flatMap fun b =>
    [hextable.getD ((b % 256) / 16) '0', hextable.getD ((b % 256) % 16) '0'])

/-- Splitting a byte sequence at each `/`. -/
def splitSlash : List Char → List (List Char)
  | [] => [[]]
  | c :: cs =>
    if c = '/' then [] :: splitSlash cs
    else
      match splitSlash cs with
      | [] => [[c]]
      | p :: ps => (c :: p) :: ps

/-- The call `strings.Split(s, "/")`. -/
def stringsSplit (s : String) : List String := (splitSlash s.data).map String.mk

/-- The two kinds of `strconv.NumError` of interest. -/
inductive NumError where
  | ErrSyntax
  | ErrRange
  deriving DecidableEq, Repr

/-- Whether the byte is a decimal digit. -/
def isDigit (c : Char) : Bool := decide ('0'.toNat ≤ c.toNat) && decide (c.toNat ≤ '9'.toNat)

/-- The loop of `strconv.ParseUint(s, 10, 64)`: `n` is the value read so far.
In base 10 every byte that is not a decimal digit is a syntax error.  An
overflow ends the loop at once with `maxVal` and a range error. -/
def parseUintLoop : List Char → Nat → Nat × Option NumError
  | [], n => (n, none)
  | c :: cs, n =>
    if !isDigit c then (0, some NumError.ErrSyntax)
    else
      let d := c.toNat - '0'.toNat
      if n ≥ (2 ^ 64 - 1) / 10 + 1 then (2 ^ 64 - 1, some NumError.ErrRange)
      else
        let n10 := (n * 10) % 2 ^ 64
        let n1 := (n10 + d) % 2 ^ 64
        if n1 < n10 ∨ n1 > 2 ^ 64 - 1 then (2 ^ 64 - 1, some NumError.ErrRange)
        else parseUintLoop cs n1

/-- The call `strconv.ParseUint(s, 10, 64)`. -/
def ParseUint (s : List Char) : Nat × Option NumError :=
  if s = [] then (0, some NumError.ErrSyntax) else parseUintLoop s 0

/-- The call `strconv.ParseInt(s, 10, 0)` with 64-bit `int`. -/
def ParseInt (s : List Char) : Int × Option NumError :=
  match s with
  | [] => (0, some NumError.ErrSyntax)
  | c :: cs =>
    let neg := decide (c = '-')
    let s1 := if c = '+' ∨ c = '-' then cs else s
    let (un, err) := ParseUint s1
    if err = some NumError.ErrSyntax then (0, err)
    else if !neg && decide (un ≥ 2 ^ 63) then (2 ^ 63 - 1, some NumError.ErrRange)
    else if neg && decide (un > 2 ^ 63) then (-(2 ^ 63), some NumError.ErrRange)
    else if neg then (-(un : Int), none) else ((un : Int), none)

/-- The loop of the fast path of `strconv.Atoi`. -/
def atoiFastLoop : List Char → Nat → Option Nat
  | [], n => some n
  | c :: cs, n => if !isDigit c then none else atoiFastLoop cs (n * 10 + (c.toNat - '0'.toNat))

/-- The function `strconv.Atoi` with 64-bit `int`: the value and the error.
The fast path is taken for 1 to 18 bytes; the check `len(s) < 1`, made in Go
after a sign was cut off, cannot hold when no sign was cut off. -/
def Atoi (s : String) : Int × Option NumError :=
  match s.data with
  | [] => ParseInt []
  | c :: cs =>
    if s.data.length < 19 then
      let digits := if c = '-' ∨ c = '+' then cs else c :: cs
      if digits.length < 1 then (0, some NumError.ErrSyntax)
      else
        match atoiFastLoop digits 0 with
        | none => (0, some NumError.ErrSyntax)
        | some n => (if c = '-' then -(n : Int) else (n : Int), none)
    else ParseInt (c :: cs)

/-- The call `http.Redirect(w, r, "/", http.StatusSeeOther)` of `net/http`, made
by a handler that set no `Content-Type` header before: the content type is set
for the methods `GET` and `HEAD`, the HTML body is written for `GET` only. -/
def httpRedirect (r : Request) : Body :=
  Body.redirect (decide (r.Method = "GET" ∨ r.Method = "HEAD")) (decide (r.Method = "GET"))

/-! ## The handlers -/

/-- The function `getUserID` (lines 227-243): the owner identifier and the cookie set on
the response, if any. -/
def getUserID (r : Request) : String × Option String :=
  match r.cookie with
  | none =>
    let userID := hexEncode ((List.range 16).map fun i => r.rand.getD i 0)
    (userID, some userID)
  | some value => (value, none)

/-- The handler `handleIndex` (lines 124-142).  It only reads the store. -/
def handleIndex (db : DB) (r : Request) : Except Panic Response :=
  let (userID, cookie) := getUserID r
  let todos := getTodos db userID
  if r.agent = "true" then
    Except.ok { setCookie := cookie, body := Body.agent (Envelope.list todos todos.length) }
  else if 8 ≤ userID.length then
    Except.ok { setCookie := cookie, body := Body.page (String.mk (userID.data.take 8)) todos }
  else
    Except.error (Panic.sliceBounds 8 userID.length)

/-- The handler `handleTodos` (lines 144-177).  When the `INSERT` fails,
`result` is nil and `result.LastInsertId()` (line 164) panics. -/
def handleTodos (db : DB) (r : Request) : DB × Except Panic Response :=
  let (userID, cookie) := getUserID r
  if r.Method = "GET" then
    let todos := getTodos db userID
    if r.agent = "true" then
      (db, Except.ok
        { setCookie := cookie, body := Body.agent (Envelope.list todos todos.length) })
    else
      (db, Except.ok { setCookie := cookie, body := httpRedirect r })
  else if r.Method = "POST" then
    match execInsert db userID r.description with
    | (db1, none) => (db1, Except.error Panic.nilResult)
    | (db1, some id) =>
      if r.agent = "true" then
        let todo : Todo := { ID := id, Description := r.description, Completed := false }
        (db1, Except.ok
          { setCookie := cookie, body := Body.agent (Envelope.created todo true) })
      else
        (db1, Except.ok { setCookie := cookie, body := httpRedirect r })
  else
    (db, Except.ok { setCookie := cookie, body := Body.nothing })

/-- The `switch action` of `handleTodoAction` (lines 190-200): the new store
and the value of `success`. -/
def runAction (db : DB) (userID : String) (id : Int) (action : String) : DB × Bool :=
  if action = "toggle" then
    let (db1, rows) := execToggle db id userID
    (db1, decide (rows > 0))
  else if action = "delete" then
    let (db1, rows) := execDelete db id userID
    (db1, decide (rows > 0))
  else
    (db, false)

/-- The handler `handleTodoAction` (lines 179-212). -/
def handleTodoAction (db : DB) (r : Request) : DB × Response :=
  let (userID, cookie) := getUserID r
  let parts := stringsSplit r.Path
  if parts.length < 4 then
    (db, { setCookie := cookie, body := Body.invalidPath })
  else
    let id := (Atoi (parts.getD 2 "")).1
    let action := parts.getD 3 ""
    let (db1, success) := runAction db userID id action
    if r.agent = "true" then
      (db1, { setCookie := cookie, body := Body.agent (Envelope.action action id success) })
    else
      (db1, { setCookie := cookie, body := httpRedirect r })

/-- The id `handleTodoAction` reads from the path: `strconv.Atoi(parts[2])`
with the error dropped (line 187). -/
def actionID (r : Request) : Int := (Atoi ((stringsSplit r.Path).getD 2 "")).1

/-- The action `handleTodoAction` reads from the path: `parts[3]` (line 188). -/
def actionName (r : Request) : String := (stringsSplit r.Path).getD 3 ""

/-! ## Reachable stores -/

/-- A request together with the handler the router gives it to. -/
inductive Call where
  | index (r : Request)
  | todos (r : Request)
  | todoAction (r : Request)
  deriving DecidableEq, Repr

/-- The store after one call. -/
def step (db : DB) : Call → DB
  | Call.index _ => db
  | Call.todos r => (handleTodos db r).1
  | Call.todoAction r => (handleTodoAction db r).1

/-- The store after a sequence of calls, the oldest first. -/
def run (db : DB) (calls : List Call) : DB := calls.foldl step db

/-! ## Example inputs -/

/-- A store with one open todo of `alice`, as left by one create. -/
def storeAlice : DB := { rows := [⟨1, "alice", "a", false⟩], seq := 1 }

/-- A store whose rows lie out of id order. -/
def storeMixed : DB :=
  { rows := [⟨3, "alice", "c", true⟩, ⟨2, "bob", "b", false⟩, ⟨1, "alice", "a", false⟩],
    seq := 3 }

/-- A request in agent mode (`?agent=true`) with the given method, path,
`user_id` cookie and form value `description`. -/
def agentRequest (method path : String) (cookie : Option String) (description : String) :
    Request :=
  { Method := method, Path := path, agent := "true", cookie := cookie,
    description := description, rand := [] }

/-- A request in human mode (no `agent` flag) with the given method, path and
`user_id` cookie. -/
def humanRequest (method path : String) (cookie : Option String) : Request :=
  { Method := method, Path := path, agent := "", cookie := cookie, description := "",
    rand := [] }

/-- A store whose table has handed out the largest rowid. -/
def storeFull : DB :=
  { rows := [⟨9223372036854775807, "alice", "a", false⟩], seq := 9223372036854775807 }

/-- The call that creates the todo `a` of `alice`. -/
def createAlice : Call := Call.todos (agentRequest "POST" "/todos" (some "alice") "a")

/-- The ids handed out so far: every row has a positive id not above the
sequence counter, and no two rows share an id. -/
def Inv (db : DB) : Prop :=
  PrimaryKey db ∧ ∀ row ∈ db.rows, 0 < row.id ∧ row.id ≤ db.seq

/-! ## Lemmas on the store -/

theorem le_maxRowid (rows : List Row) : ∀ row ∈ rows, row.id ≤ maxRowid rows := by
  induction rows with
  | nil => intro row h; cases h
  | cons a rest ih =>
    intro row h
    rcases List.mem_cons.mp h with h | h
    · subst h; exact le_max_left _ _
    · exact le_trans (ih row h) (le_max_right _ _)

theorem lt_nextRowid (db : DB) : ∀ row ∈ db.rows, row.id < nextRowid db := by
  intro row h
  have h1 := le_maxRowid db.rows row h
  have h2 : maxRowid db.rows ≤ max db.seq (maxRowid db.rows) := le_max_right _ _
  unfold nextRowid
  omega

theorem seq_lt_nextRowid (db : DB) : db.seq < nextRowid db := by
  have h2 : db.seq ≤ max db.seq (maxRowid db.rows) := le_max_left _ _
  unfold nextRowid
  omega

theorem orderedInsert_append_last (a b : Row) (h : rowLE b a) :
    ∀ m : List Row, List.orderedInsert rowLE b (m ++ [a]) = List.orderedInsert rowLE b m ++ [a] := by
  intro m
  induction m with
  | nil => simp [List.orderedInsert, h]
  | cons c m ih =>
    by_cases hbc : rowLE b c
    · simp [List.orderedInsert, hbc]
    · simp [List.orderedInsert, hbc, ih]

theorem insertionSort_append_last (a : Row) :
    ∀ l : List Row, (∀ b ∈ l, rowLE b a) →
      List.insertionSort rowLE (l ++ [a]) = List.insertionSort rowLE l ++ [a] := by
  intro l
  induction l with
  | nil => intro _; rfl
  | cons b l ih =>
    intro h
    have hb : rowLE b a := h b (List.mem_cons_self _ _)
    have hl : ∀ c ∈ l, rowLE c a := fun c hc => h c (List.mem_cons_of_mem _ hc)
    have e : List.insertionSort rowLE (b :: l ++ [a])
        = List.orderedInsert rowLE b (List.insertionSort rowLE (l ++ [a])) := rfl
    rw [e, ih hl, orderedInsert_append_last a b hb]
    rfl

theorem querySelect_perm (db : DB) (userID : String) :
    (querySelect db userID).Perm (db.rows.filter fun row => decide (row.user_id = userID)) :=
  List.perm_insertionSort _ _

theorem querySelect_sorted (db : DB) (userID : String) :
    (querySelect db userID).Sorted rowLE :=
  List.sorted_insertionSort _ _

theorem querySelect_congr (db db1 : DB) (userID : String)
    (h : (db1.rows.filter fun row => decide (row.user_id = userID))
        = db.rows.filter fun row => decide (row.user_id = userID)) :
    querySelect db1 userID = querySelect db userID := by
  unfold querySelect; rw [h]

theorem getTodos_congr (db db1 : DB) (userID : String)
    (h : (db1.rows.filter fun row => decide (row.user_id = userID))
        = db.rows.filter fun row => decide (row.user_id = userID)) :
    getTodos db1 userID = getTodos db userID := by
  unfold getTodos; rw [querySelect_congr db db1 userID h]

theorem nodup_ids_filter (db : DB) (hpk : PrimaryKey db) (p : Row → Bool) :
    ((db.rows.filter p).map Row.id).Nodup :=
  List.Nodup.sublist (List.Sublist.map _ (List.filter_sublist _)) hpk

theorem querySelect_nodup_ids (db : DB) (hpk : PrimaryKey db) (userID : String) :
    ((querySelect db userID).map Row.id).Nodup :=
  ((querySelect_perm db userID).map Row.id).nodup_iff.mpr (nodup_ids_filter db hpk _)

theorem querySelect_strict (db : DB) (hpk : PrimaryKey db) (userID : String) :
    (querySelect db userID).Pairwise fun a b => a.id < b.id := by
  have hs : (querySelect db userID).Pairwise rowLE := querySelect_sorted db userID
  have hn : (querySelect db userID).Pairwise fun a b => a.id ≠ b.id :=
    List.pairwise_map.mp (querySelect_nodup_ids db hpk userID)
  exact (hs.and hn).imp fun h => lt_of_le_of_ne h.1 h.2

theorem getTodos_strict (db : DB) (hpk : PrimaryKey db) (userID : String) :
    (getTodos db userID).Pairwise fun a b => a.ID < b.ID := by
  unfold getTodos
  rw [List.pairwise_map]
  exact querySelect_strict db hpk userID

theorem getTodos_perm (db : DB) (userID : String) :
    (getTodos db userID).Perm
      ((db.rows.filter fun row => decide (row.user_id = userID)).map scanRow) :=
  (querySelect_perm db userID).map scanRow

theorem getTodos_order_irrelevant (db db1 : DB) (hpk : PrimaryKey db) (userID : String)
    (h : db1.rows.Perm db.rows) : getTodos db1 userID = getTodos db userID := by
  have hpk1 : PrimaryKey db1 := ((h.map Row.id).nodup_iff).mpr hpk
  have hp : (getTodos db1 userID).Perm (getTodos db userID) :=
    (getTodos_perm db1 userID).trans
      (((h.filter _).map scanRow).trans (getTodos_perm db userID).symm)
  exact List.eq_of_perm_of_sorted hp (getTodos_strict db1 hpk1 userID)
    (getTodos_strict db hpk userID)

/-! ## Lemmas on the statements -/

theorem matchesRow_iff (id : Int) (userID : String) (row : Row) :
    matchesRow id userID row = true ↔ row.id = id ∧ row.user_id = userID := by
  simp [matchesRow]

theorem toggle_rows_other (db : DB) (id : Int) (B A : String) (h : B ≠ A) :
    ((execToggle db id B).1.rows.filter fun row => decide (row.user_id = A))
      = db.rows.filter fun row => decide (row.user_id = A) := by
  simp only [execToggle]
  induction db.rows with
  | nil => rfl
  | cons a rest ih =>
    by_cases hm : matchesRow id B a = true
    · have hu : a.user_id = B := ((matchesRow_iff id B a).mp hm).2
      have hne : ¬ a.user_id = A := fun e => h (hu.symm.trans e)
      simp [List.filter_cons, hm, hne, ih]
    · by_cases ha : a.user_id = A
      · simp [List.filter_cons, hm, ha, ih]
      · simp [List.filter_cons, hm, ha, ih]

theorem delete_rows_other (db : DB) (id : Int) (B A : String) (h : B ≠ A) :
    ((execDelete db id B).1.rows.filter fun row => decide (row.user_id = A))
      = db.rows.filter fun row => decide (row.user_id = A) := by
  simp only [execDelete, List.filter_filter]
  apply List.filter_congr
  intro row _
  by_cases hm : matchesRow id B row = true
  · have hu : row.user_id = B := ((matchesRow_iff id B row).mp hm).2
    have hne : ¬ row.user_id = A := fun e => h (hu.symm.trans e)
    simp [hm, hne]
  · simp [hm]

/-- The `INSERT` on a table that has a rowid left. -/
theorem execInsert_room (db : DB) (userID D : String) (h : nextRowid db ≤ 2 ^ 63 - 1) :
    execInsert db userID D
      = ({ rows := db.rows ++ [{ id := nextRowid db, user_id := userID, description := D,
                                 completed := false }],
           seq := nextRowid db }, some (nextRowid db)) := by
  have hn : ¬ nextRowid db > 2 ^ 63 - 1 := not_lt.mpr h
  simp only [execInsert, hn, if_false]

/-- The `INSERT` on a table that has no rowid left. -/
theorem execInsert_full (db : DB) (userID D : String) (h : nextRowid db > 2 ^ 63 - 1) :
    execInsert db userID D = (db, none) := by
  simp only [execInsert, h, if_true]

theorem insert_rows_other (db : DB) (B D A : String) (h : B ≠ A) :
    ((execInsert db B D).1.rows.filter fun row => decide (row.user_id = A))
      = db.rows.filter fun row => decide (row.user_id = A) := by
  by_cases hfull : nextRowid db > 2 ^ 63 - 1
  · rw [execInsert_full db B D hfull]
  · rw [execInsert_room db B D (not_lt.mp hfull)]
    simp [List.filter_append, List.filter_cons, h]

theorem runAction_rows_other (db : DB) (id : Int) (action B A : String) (h : B ≠ A) :
    ((runAction db B id action).1.rows.filter fun row => decide (row.user_id = A))
      = db.rows.filter fun row => decide (row.user_id = A) := by
  unfold runAction
  by_cases h1 : action = "toggle"
  · simp only [h1, if_true]; exact toggle_rows_other db id B A h
  · by_cases h2 : action = "delete"
    · simp only [h1, h2, if_true, if_false]; exact delete_rows_other db id B A h
    · simp only [h1, h2, if_false]

theorem handleTodoAction_store (db : DB) (r : Request)
    (hlen : 4 ≤ (stringsSplit r.Path).length) :
    (handleTodoAction db r).1 = (runAction db (getUserID r).1 (actionID r) (actionName r)).1 := by
  have hl : ¬ (stringsSplit r.Path).length < 4 := by omega
  unfold handleTodoAction actionID actionName
  by_cases ha : r.agent = "true" <;> simp [hl, ha]

theorem handleTodoAction_store_short (db : DB) (r : Request)
    (hlen : (stringsSplit r.Path).length < 4) :
    (handleTodoAction db r).1 = db := by
  unfold handleTodoAction
  simp [hlen]

theorem handleTodoAction_body (db : DB) (r : Request)
    (hlen : 4 ≤ (stringsSplit r.Path).length) (hagent : r.agent = "true") :
    (handleTodoAction db r).2.body
      = Body.agent (Envelope.action (actionName r) (actionID r)
          (runAction db (getUserID r).1 (actionID r) (actionName r)).2) := by
  have hl : ¬ (stringsSplit r.Path).length < 4 := by omega
  unfold handleTodoAction actionID actionName
  simp [hl, hagent]

theorem handleTodos_store_post (db : DB) (r : Request) (hpost : r.Method = "POST") :
    (handleTodos db r).1 = (execInsert db (getUserID r).1 r.description).1 := by
  have hget : ¬ r.Method = "GET" := by rw [hpost]; decide
  unfold handleTodos
  simp only [hget, hpost, if_true, if_false]
  rcases hres : execInsert db (getUserID r).1 r.description with ⟨db1, _ | id⟩
  · rfl
  · by_cases ha : r.agent = "true" <;> simp [ha]

theorem handleTodos_store_other (db : DB) (r : Request) (hpost : r.Method ≠ "POST") :
    (handleTodos db r).1 = db := by
  unfold handleTodos
  by_cases hg : r.Method = "GET" <;> by_cases ha : r.agent = "true" <;> simp [hpost, ha, hg]

/-- The response to a create in agent mode on a table that has a rowid left. -/
theorem handleTodos_post_agent (db : DB) (r : Request) (hpost : r.Method = "POST")
    (hagent : r.agent = "true") (h : nextRowid db ≤ 2 ^ 63 - 1) :
    (handleTodos db r).2 = Except.ok
      { setCookie := (getUserID r).2,
        body := Body.agent (Envelope.created
          { ID := nextRowid db, Description := r.description, Completed := false } true) } := by
  unfold handleTodos
  simp [hpost, hagent, execInsert_room db _ _ h]

theorem handleTodos_rows_other (db : DB) (r : Request) (A : String)
    (h : (getUserID r).1 ≠ A) :
    ((handleTodos db r).1.rows.filter fun row => decide (row.user_id = A))
      = db.rows.filter fun row => decide (row.user_id = A) := by
  by_cases hpost : r.Method = "POST"
  · rw [handleTodos_store_post db r hpost]; exact insert_rows_other db _ _ A h
  · rw [handleTodos_store_other db r hpost]

theorem handleTodoAction_rows_other (db : DB) (r : Request) (A : String)
    (h : (getUserID r).1 ≠ A) :
    ((handleTodoAction db r).1.rows.filter fun row => decide (row.user_id = A))
      = db.rows.filter fun row => decide (row.user_id = A) := by
  by_cases hlen : 4 ≤ (stringsSplit r.Path).length
  · rw [handleTodoAction_store db r hlen]; exact runAction_rows_other db _ _ _ A h
  · rw [handleTodoAction_store_short db r (by omega)]

/-! ## Invariants of the store -/

theorem Inv_empty : Inv DB.empty := by
  refine ⟨?_, ?_⟩
  · simp [PrimaryKey, DB.empty]
  · intro row h; simp [DB.empty] at h

theorem toggle_ids (db : DB) (id : Int) (userID : String) :
    (execToggle db id userID).1.rows.map Row.id = db.rows.map Row.id := by
  simp only [execToggle, List.map_map]
  apply List.map_congr_left
  intro row _
  by_cases hm : matchesRow id userID row = true <;> simp [hm]

theorem Inv_insert (db : DB) (userID D : String) (h : Inv db) :
    Inv (execInsert db userID D).1 := by
  by_cases hfull : nextRowid db > 2 ^ 63 - 1
  · rw [execInsert_full db userID D hfull]; exact h
  rw [execInsert_room db userID D (not_lt.mp hfull)]
  obtain ⟨hpk, hb⟩ := h
  have hlt := lt_nextRowid db
  have hseq := seq_lt_nextRowid db
  refine ⟨?_, ?_⟩
  · simp only [PrimaryKey, List.map_append, List.map_cons, List.map_nil]
    rw [List.nodup_append]
    refine ⟨hpk, List.nodup_singleton _, ?_⟩
    intro a ha hb1
    rw [List.mem_singleton] at hb1
    obtain ⟨row, hrow, rfl⟩ := List.mem_map.mp ha
    have := hlt row hrow
    omega
  · intro row hrow
    simp only [List.mem_append, List.mem_singleton] at hrow
    rcases hrow with hrow | rfl
    · have h1 := hb row hrow
      have h2 := hlt row hrow
      exact ⟨h1.1, le_of_lt h2⟩
    · have h4 : (0:Int) ≤ maxRowid db.rows := by
        cases hr : db.rows with
        | nil => simp [maxRowid]
        | cons a rest =>
          have ha : a ∈ db.rows := by rw [hr]; exact List.mem_cons_self _ _
          have := le_maxRowid db.rows a ha
          have := (hb a ha).1
          rw [← hr]; omega
      have h5 : maxRowid db.rows ≤ max db.seq (maxRowid db.rows) := le_max_right _ _
      refine ⟨?_, le_refl _⟩
      show 0 < nextRowid db
      unfold nextRowid; omega

theorem Inv_toggle (db : DB) (id : Int) (userID : String) (h : Inv db) :
    Inv (execToggle db id userID).1 := by
  obtain ⟨hpk, hb⟩ := h
  refine ⟨?_, ?_⟩
  · unfold PrimaryKey; rw [toggle_ids]; exact hpk
  · intro row hrow
    simp only [execToggle, List.mem_map] at hrow
    obtain ⟨x, hx, rfl⟩ := hrow
    have := hb x hx
    by_cases hm : matchesRow id userID x = true <;> simpa [hm, execToggle] using this

theorem Inv_delete (db : DB) (id : Int) (userID : String) (h : Inv db) :
    Inv (execDelete db id userID).1 := by
  obtain ⟨hpk, hb⟩ := h
  refine ⟨?_, ?_⟩
  · exact nodup_ids_filter db hpk _
  · intro row hrow
    simp only [execDelete] at hrow
    exact hb row (List.mem_of_mem_filter hrow)

theorem Inv_runAction (db : DB) (userID : String) (id : Int) (action : String) (h : Inv db) :
    Inv (runAction db userID id action).1 := by
  unfold runAction
  by_cases h1 : action = "toggle"
  · simp only [h1, if_true]; exact Inv_toggle db id userID h
  · by_cases h2 : action = "delete"
    · simp only [h1, h2, if_true, if_false]; exact Inv_delete db id userID h
    · simp only [h1, h2, if_false]; exact h

theorem Inv_handleTodos (db : DB) (r : Request) (h : Inv db) : Inv (handleTodos db r).1 := by
  by_cases hpost : r.Method = "POST"
  · rw [handleTodos_store_post db r hpost]; exact Inv_insert db _ _ h
  · rw [handleTodos_store_other db r hpost]; exact h

theorem Inv_handleTodoAction (db : DB) (r : Request) (h : Inv db) :
    Inv (handleTodoAction db r).1 := by
  by_cases hlen : 4 ≤ (stringsSplit r.Path).length
  · rw [handleTodoAction_store db r hlen]; exact Inv_runAction db _ _ _ h
  · rw [handleTodoAction_store_short db r (by omega)]; exact h

theorem Inv_step (db : DB) (c : Call) (h : Inv db) : Inv (step db c) := by
  cases c with
  | index r => exact h
  | todos r => exact Inv_handleTodos db r h
  | todoAction r => exact Inv_handleTodoAction db r h

theorem Inv_run (calls : List Call) : ∀ db, Inv db → Inv (run db calls) := by
  induction calls with
  | nil => intro db h; exact h
  | cons c rest ih => intro db h; exact ih (step db c) (Inv_step db c h)

theorem Inv_reachable (calls : List Call) : Inv (run DB.empty calls) :=
  Inv_run calls DB.empty Inv_empty

/-- Under the primary key at most one row matches an id. -/
theorem match_le_one (db : DB) (hpk : PrimaryKey db) (id : Int) (userID : String) :
    (db.rows.filter (matchesRow id userID)).length ≤ 1 := by
  have hn : ((db.rows.filter (matchesRow id userID)).map Row.id).Nodup :=
    nodup_ids_filter db hpk _
  match hl : db.rows.filter (matchesRow id userID) with
  | [] => simp
  | [_] => simp
  | a :: b :: rest =>
    exfalso
    have ha : a ∈ db.rows.filter (matchesRow id userID) := by rw [hl]; simp
    have hb : b ∈ db.rows.filter (matchesRow id userID) := by rw [hl]; simp
    have ha1 := ((matchesRow_iff id userID a).mp (List.mem_filter.mp ha).2).1
    have hb1 := ((matchesRow_iff id userID b).mp (List.mem_filter.mp hb).2).1
    rw [hl] at hn
    simp only [List.map_cons, List.nodup_cons, List.mem_cons] at hn
    exact hn.1 (Or.inl (ha1.trans hb1.symm))

/-- A row of another owner with the id excludes a match, under the primary key. -/
theorem no_match_of_foreign (db : DB) (hpk : PrimaryKey db) (id : Int) (A B : String)
    (hAB : B ≠ A) (hrow : ∃ row ∈ db.rows, row.id = id ∧ row.user_id = A) :
    db.rows.filter (matchesRow id B) = [] := by
  obtain ⟨row, hmem, hid, hu⟩ := hrow
  rw [List.filter_eq_nil_iff]
  intro x hx hm
  obtain ⟨hxid, hxu⟩ := (matchesRow_iff id B x).mp hm
  have hinj : x = row := by
    have := List.inj_on_of_nodup_map hpk hx hmem (hxid.trans hid.symm)
    exact this
  rw [hinj] at hxu
  exact hAB (hxu.symm.trans hu)

theorem toggle_no_match (db : DB) (id : Int) (userID : String)
    (h : db.rows.filter (matchesRow id userID) = []) : (execToggle db id userID).1 = db := by
  rw [List.filter_eq_nil_iff] at h
  have : (db.rows.map fun row =>
      if matchesRow id userID row then { row with completed := !row.completed } else row)
      = db.rows := by
    conv_rhs => rw [← List.map_id db.rows]
    apply List.map_congr_left
    intro row hrow
    simp [h row hrow]
  simp only [execToggle, this]

theorem delete_no_match (db : DB) (id : Int) (userID : String)
    (h : db.rows.filter (matchesRow id userID) = []) : (execDelete db id userID).1 = db := by
  rw [List.filter_eq_nil_iff] at h
  have : (db.rows.filter fun row => !matchesRow id userID row) = db.rows := by
    rw [List.filter_eq_self]
    intro row hrow
    simp [h row hrow]
  simp only [execDelete, this]

theorem runAction_no_match (db : DB) (id : Int) (userID action : String)
    (h : db.rows.filter (matchesRow id userID) = []) :
    runAction db userID id action = (db, false) := by
  unfold runAction
  by_cases h1 : action = "toggle"
  · simp only [h1, if_true, toggle_no_match db id userID h]
    simp [execToggle, h]
  · by_cases h2 : action = "delete"
    · simp only [h1, h2, if_true, if_false, delete_no_match db id userID h]
      simp [execDelete, h]
    · simp only [h1, h2, if_false]

/-! ## Lemmas on the library functions -/

theorem splitSlash_ne_nil : ∀ s : List Char, splitSlash s ≠ [] := by
  intro s
  induction s with
  | nil => simp [splitSlash]
  | cons c cs ih =>
    unfold splitSlash
    by_cases hc : c = '/'
    · simp [hc]
    · simp only [hc, if_false]
      cases h : splitSlash cs with
      | nil => simp
      | cons p ps => simp

theorem splitSlash_no_slash : ∀ s : List Char, '/' ∉ s → splitSlash s = [s] := by
  intro s
  induction s with
  | nil => intro _; rfl
  | cons c cs ih =>
    intro h
    have hc : ¬ c = '/' := fun e => h (by simp [e])
    have hcs : '/' ∉ cs := fun e => h (List.mem_cons_of_mem _ e)
    unfold splitSlash
    simp [hc, ih hcs]

theorem splitSlash_append : ∀ (a rest : List Char), '/' ∉ a →
    splitSlash (a ++ '/' :: rest) = a :: splitSlash rest := by
  intro a rest
  induction a with
  | nil => intro _; simp [splitSlash]
  | cons c cs ih =>
    intro h
    have hc : ¬ c = '/' := fun e => h (by simp [e])
    have hcs : '/' ∉ cs := fun e => h (List.mem_cons_of_mem _ e)
    have e : splitSlash (c :: (cs ++ '/' :: rest)) = (c :: cs) :: splitSlash rest := by
      simp only [splitSlash, hc, if_false, ih hcs]
    simpa using e

/-- The segments of a path `/todos/{tok}/{act}`. -/
theorem stringsSplit_action_path (tok act : String) (htok : '/' ∉ tok.data)
    (hact : '/' ∉ act.data) :
    stringsSplit ("/todos/" ++ tok ++ "/" ++ act) = ["", "todos", tok, act] := by
  have e : ("/todos/" ++ tok ++ "/" ++ act).data
      = [] ++ '/' :: (['t', 'o', 'd', 'o', 's'] ++ '/' :: (tok.data ++ '/' :: act.data)) := by
    simp [String.data_append]
  unfold stringsSplit
  rw [e, splitSlash_append _ _ (by simp), splitSlash_append _ _ (by decide),
    splitSlash_append _ _ htok, splitSlash_no_slash _ hact]
  rfl

theorem ParseInt_syntaxError (s : List Char) (h : (ParseInt s).2 = some NumError.ErrSyntax) :
    (ParseInt s).1 = 0 := by
  unfold ParseInt at h ⊢
  cases s with
  | nil => rfl
  | cons c cs =>
    simp only at h ⊢
    generalize ParseUint (if c = '+' ∨ c = '-' then cs else c :: cs) = pu at h ⊢
    obtain ⟨un, err⟩ := pu
    simp only at h ⊢
    split_ifs at h ⊢ <;> simp_all

/-- A syntax error of `Atoi` comes with the value 0. -/
theorem Atoi_syntaxError (s : String) (h : (Atoi s).2 = some NumError.ErrSyntax) :
    (Atoi s).1 = 0 := by
  unfold Atoi at h ⊢
  cases hs : s.data with
  | nil => rfl
  | cons c cs =>
    rw [hs] at h
    simp only at h ⊢
    by_cases h19 : (c :: cs).length < 19
    · simp only [h19, if_true] at h ⊢
      generalize (if c = '-' ∨ c = '+' then cs else c :: cs) = digits at h ⊢
      by_cases hd : digits.length < 1
      · simp only [hd, if_true]
      · simp only [hd, if_false] at h ⊢
        cases hl : atoiFastLoop digits 0 with
        | none => simp only
        | some m => rw [hl] at h; simp at h
    · simp only [h19, if_false] at h ⊢
      exact ParseInt_syntaxError _ h

theorem isDigit_le (c : Char) (h : isDigit c = true) : c.toNat - '0'.toNat ≤ 9 := by
  simp only [isDigit, Bool.and_eq_true, decide_eq_true_eq] at h
  have h9 : '9'.toNat = 57 := by decide
  have h0 : '0'.toNat = 48 := by decide
  omega

theorem atoiFastLoop_lt : ∀ (s : List Char) (n m : Nat),
    atoiFastLoop s n = some m → m < (n + 1) * 10 ^ s.length := by
  intro s
  induction s with
  | nil =>
    intro n m h
    simp only [atoiFastLoop, Option.some.injEq] at h
    simp only [List.length_nil, pow_zero, mul_one]
    omega
  | cons c cs ih =>
    intro n m h
    by_cases hd : isDigit c = true
    · simp only [atoiFastLoop, hd, Bool.not_true, Bool.false_eq_true, if_false] at h
      have h1 := ih _ _ h
      have h2 := isDigit_le c hd
      have h3 : (n * 10 + (c.toNat - '0'.toNat) + 1) * 10 ^ cs.length
          ≤ ((n + 1) * 10) * 10 ^ cs.length :=
        Nat.mul_le_mul_right _ (by omega)
      have h4 : (n + 1) * 10 ^ (c :: cs).length = ((n + 1) * 10) * 10 ^ cs.length := by
        rw [List.length_cons, pow_succ]; ring
      omega
    · simp [atoiFastLoop, hd] at h

theorem ParseInt_le (s : List Char) : (ParseInt s).1 ≤ 2 ^ 63 - 1 := by
  unfold ParseInt
  cases s with
  | nil => simp
  | cons c cs =>
    simp only
    generalize ParseUint (if c = '+' ∨ c = '-' then cs else c :: cs) = pu
    obtain ⟨un, err⟩ := pu
    simp only
    split_ifs with h1 h2 h3 h4
    · simp
    · simp
    · simp
    · have : (0:Int) ≤ (un : Int) := Int.ofNat_nonneg un
      simp only
      omega
    · simp only [Bool.and_eq_true, Bool.not_eq_true', decide_eq_false_iff_not,
        decide_eq_true_eq, not_and] at h2 h4
      have hneg : ¬ c = '-' := by simpa using h4
      have hlt : un < 2 ^ 63 := by
        have := h2 hneg
        omega
      simp only
      omega

/-- The value of `Atoi` is at most the largest `int`. -/
theorem Atoi_le (s : String) : (Atoi s).1 ≤ 2 ^ 63 - 1 := by
  unfold Atoi
  cases hs : s.data with
  | nil => exact ParseInt_le []
  | cons c cs =>
    simp only
    by_cases h19 : (c :: cs).length < 19
    · simp only [h19, if_true]
      generalize hdig : (if c = '-' ∨ c = '+' then cs else c :: cs) = digits
      have hlen : digits.length ≤ 18 := by
        rw [← hdig]
        simp only [List.length_cons] at h19
        split_ifs
        · omega
        · simp only [List.length_cons]; omega
      by_cases hd : digits.length < 1
      · simp [hd]
      · simp only [hd, if_false]
        cases hl : atoiFastLoop digits 0 with
        | none => simp
        | some m =>
          have h1 := atoiFastLoop_lt digits 0 m hl
          have h2 : 10 ^ digits.length ≤ 10 ^ 18 := Nat.pow_le_pow_right (by decide) hlen
          have h3 : m < 10 ^ 18 := by omega
          have h4 : (10:Nat) ^ 18 = 1000000000000000000 := by norm_num
          simp only
          split_ifs <;> omega
    · simp only [h19, if_false]
      exact ParseInt_le _

/-! ## The listing -/

/-- C2: in a store that satisfies the primary key, `getTodos owner` is strictly
ascending by id and is a permutation of the owner's rows (each exactly once,
with its id, description and completed value); the result does not depend on
the order in which the rows lie in the table; and an owner without rows gets
the empty list. -/
theorem getTodos_exact_ascending (db : DB) (owner : String) (hpk : PrimaryKey db) :
    (getTodos db owner).Pairwise (fun a b => a.ID < b.ID)
    ∧ (getTodos db owner).Perm
        ((db.rows.filter fun row => decide (row.user_id = owner)).map scanRow)
    ∧ (∀ t, t ∈ getTodos db owner ↔
        ∃ row ∈ db.rows, row.user_id = owner ∧
          t = { ID := row.id, Description := row.description, Completed := row.completed })
    ∧ (getTodos db owner).Nodup
    ∧ (∀ db1 : DB, db1.rows.Perm db.rows → getTodos db1 owner = getTodos db owner)
    ∧ ((∀ row ∈ db.rows, row.user_id ≠ owner) → getTodos db owner = []) := by
  have hstrict := getTodos_strict db hpk owner
  refine ⟨hstrict, getTodos_perm db owner, ?_, ?_, ?_, ?_⟩
  · intro t
    rw [(getTodos_perm db owner).mem_iff, List.mem_map]
    constructor
    · rintro ⟨row, hrow, rfl⟩
      obtain ⟨hmem, hu⟩ := List.mem_filter.mp hrow
      exact ⟨row, hmem, by simpa using hu, rfl⟩
    · rintro ⟨row, hmem, hu, rfl⟩
      exact ⟨row, List.mem_filter.mpr ⟨hmem, by simpa using hu⟩, rfl⟩
  · exact hstrict.imp fun h => fun e => by rw [e] at h; exact lt_irrefl _ h
  · intro db1 h
    exact getTodos_order_irrelevant db db1 hpk owner h
  · intro h
    have : (db.rows.filter fun row => decide (row.user_id = owner)) = [] := by
      rw [List.filter_eq_nil_iff]
      intro row hrow
      simpa using h row hrow
    simp [getTodos, querySelect, this]

/-- Witness of C2 on a store whose rows lie out of id order. -/
theorem getTodos_exact_ascending_witness :
    PrimaryKey storeMixed
    ∧ getTodos storeMixed "alice" = [⟨1, "a", false⟩, ⟨3, "c", true⟩]
    ∧ (getTodos storeMixed "alice").Pairwise (fun a b => a.ID < b.ID)
    ∧ getTodos storeMixed "carol" = [] :=
  have h := getTodos_exact_ascending storeMixed "alice" (by decide)
  ⟨by decide, by decide, h.1,
   (getTodos_exact_ascending storeMixed "carol" (by decide)).2.2.2.2.2 (by decide)⟩

/-! ## Owner isolation -/

/-- C1: a request handled for an owner other than `A` (a create, a toggle, a
delete, or anything else given to `handleTodos` or `handleTodoAction`) leaves
the rows of `A` and the list `getTodos A` unchanged; an action of that owner on
an id whose row belongs to `A` reports `success = false` and changes nothing;
and the row a create of that owner adds never shows in `getTodos A`. -/
theorem owner_isolation (db : DB) (r : Request) (A : String)
    (hAB : (getUserID r).1 ≠ A) (hpk : PrimaryKey db) :
    getTodos (handleTodos db r).1 A = getTodos db A
    ∧ getTodos (handleTodoAction db r).1 A = getTodos db A
    ∧ ((handleTodos db r).1.rows.filter fun row => decide (row.user_id = A))
        = (db.rows.filter fun row => decide (row.user_id = A))
    ∧ ((handleTodoAction db r).1.rows.filter fun row => decide (row.user_id = A))
        = (db.rows.filter fun row => decide (row.user_id = A))
    ∧ (4 ≤ (stringsSplit r.Path).length →
        (∃ row ∈ db.rows, row.id = actionID r ∧ row.user_id = A) →
          (handleTodoAction db r).1 = db
          ∧ (r.agent = "true" → (handleTodoAction db r).2.body
              = Body.agent (Envelope.action (actionName r) (actionID r) false)))
    ∧ (r.Method = "POST" →
        (∀ t ∈ getTodos (handleTodos db r).1 A, t.ID ≠ nextRowid db)
        ∧ (∀ row ∈ (handleTodos db r).1.rows, row.id = nextRowid db →
            row.user_id = (getUserID r).1)) := by
  have h1 := handleTodos_rows_other db r A hAB
  have h2 := handleTodoAction_rows_other db r A hAB
  refine ⟨getTodos_congr _ _ A h1, getTodos_congr _ _ A h2, h1, h2, ?_, ?_⟩
  · intro hlen hrow
    have hno := no_match_of_foreign db hpk (actionID r) A (getUserID r).1 hAB hrow
    have hrun := runAction_no_match db (actionID r) (getUserID r).1 (actionName r) hno
    refine ⟨?_, ?_⟩
    · rw [handleTodoAction_store db r hlen, hrun]
    · intro hagent
      rw [handleTodoAction_body db r hlen hagent, hrun]
  · intro hpost
    refine ⟨?_, ?_⟩
    · intro t ht
      rw [getTodos_congr _ _ A h1] at ht
      rw [(getTodos_perm db A).mem_iff, List.mem_map] at ht
      obtain ⟨row, hrow, rfl⟩ := ht
      have := lt_nextRowid db row (List.mem_of_mem_filter hrow)
      simp only [scanRow]
      omega
    · intro row hrow hid
      rw [handleTodos_store_post db r hpost] at hrow
      by_cases hfull : nextRowid db > 2 ^ 63 - 1
      · rw [execInsert_full db _ _ hfull] at hrow
        have := lt_nextRowid db row hrow
        omega
      · rw [execInsert_room db _ _ (not_lt.mp hfull)] at hrow
        simp only [List.mem_append, List.mem_singleton] at hrow
        rcases hrow with hrow | rfl
        · have := lt_nextRowid db row hrow
          omega
        · rfl

/-- Witness of C1: `bob` asks to delete the id of the row of `alice`. -/
theorem owner_isolation_witness :
    (getUserID (agentRequest "POST" "/todos/1/delete" (some "bob") "")).1 ≠ "alice"
    ∧ PrimaryKey storeAlice
    ∧ getTodos (handleTodoAction storeAlice
          (agentRequest "POST" "/todos/1/delete" (some "bob") "")).1 "alice"
        = getTodos storeAlice "alice"
    ∧ (handleTodoAction storeAlice
          (agentRequest "POST" "/todos/1/delete" (some "bob") "")).2.body
        = Body.agent (Envelope.action "delete" 1 false) :=
  have h := owner_isolation storeAlice (agentRequest "POST" "/todos/1/delete" (some "bob") "")
    "alice" (by decide) (by decide)
  ⟨by decide, by decide, h.2.1,
   (h.2.2.2.2.1 (by decide) ⟨⟨1, "alice", "a", false⟩, by decide, by decide, rfl⟩).2 rfl⟩

/-! ## Create -/

/-- C3, as stated, fails: on a store whose table has handed out the largest
rowid `2^63 - 1`, `POST /todos` adds no item: the `INSERT` fails, the handler
ends in a panic instead of the envelope, and the store and the owner's list are
what they were. -/
theorem create_fails_on_full_table :
    (agentRequest "POST" "/todos" (some "alice") "b").Method = "POST"
    ∧ handleTodos storeFull (agentRequest "POST" "/todos" (some "alice") "b")
        = (storeFull, Except.error Panic.nilResult)
    ∧ getTodos (handleTodos storeFull (agentRequest "POST" "/todos" (some "alice") "b")).1
          "alice"
        = getTodos storeFull "alice"
    ∧ getTodos (handleTodos storeFull (agentRequest "POST" "/todos" (some "alice") "b")).1
          "alice"
        ≠ getTodos storeFull "alice" ++ [⟨nextRowid storeFull, "b", false⟩] :=
  ⟨rfl, rfl, by decide, by decide⟩

/-- C3, amended: on a store whose table has a rowid left (the next rowid is at
most `2^63 - 1`), after `POST /todos` the owner's list is the list before
followed by one new item, with the posted description and `completed = false`;
the table is the table before plus that one row; the new id is not the id of
any row that was in the store, it is the id of the agent envelope
`{"created": {id, description, false}, "success": true}`, and it is 1 on the
empty store. -/
theorem create_round_trip (db : DB) (r : Request) (hpost : r.Method = "POST")
    (hroom : nextRowid db ≤ 2 ^ 63 - 1) :
    getTodos (handleTodos db r).1 (getUserID r).1
      = getTodos db (getUserID r).1
          ++ [{ ID := nextRowid db, Description := r.description, Completed := false }]
    ∧ (handleTodos db r).1
      = { rows := db.rows ++ [{ id := nextRowid db, user_id := (getUserID r).1,
                                description := r.description, completed := false }],
          seq := nextRowid db }
    ∧ (∀ row ∈ db.rows, row.id ≠ nextRowid db)
    ∧ (r.agent = "true" → (handleTodos db r).2 = Except.ok
        { setCookie := (getUserID r).2,
          body := Body.agent (Envelope.created
            { ID := nextRowid db, Description := r.description, Completed := false } true) })
    ∧ (r.agent ≠ "true" → (handleTodos db r).2 = Except.ok
        { setCookie := (getUserID r).2, body := Body.redirect false false })
    ∧ (db = DB.empty → nextRowid db = 1) := by
  refine ⟨?_, ?_, ?_, ?_, ?_, ?_⟩
  · rw [handleTodos_store_post db r hpost, execInsert_room db _ _ hroom]
    simp only [getTodos, querySelect, List.filter_append, List.filter_cons,
      List.filter_nil, decide_True, if_true]
    rw [insertionSort_append_last]
    · simp [scanRow]
    · intro b hb
      exact le_of_lt (lt_nextRowid db b (List.mem_of_mem_filter hb))
  · rw [handleTodos_store_post db r hpost, execInsert_room db _ _ hroom]
  · intro row hrow
    exact ne_of_lt (lt_nextRowid db row hrow)
  · intro hagent
    exact handleTodos_post_agent db r hpost hagent hroom
  · intro hagent
    unfold handleTodos
    simp [hpost, hagent, execInsert_room db _ _ hroom, httpRedirect]
  · rintro rfl
    decide

/-- Witness of C3 amended: the scenario `description=Buy milk` on the empty
store, without identity token. -/
theorem create_round_trip_witness :
    (agentRequest "POST" "/todos" none "Buy milk").Method = "POST"
    ∧ nextRowid DB.empty ≤ 2 ^ 63 - 1
    ∧ (handleTodos DB.empty (agentRequest "POST" "/todos" none "Buy milk")).2
        = Except.ok
            { setCookie := some "00000000000000000000000000000000",
              body := Body.agent (Envelope.created ⟨1, "Buy milk", false⟩ true) }
    ∧ getTodos (handleTodos DB.empty (agentRequest "POST" "/todos" none "Buy milk")).1
          (getUserID (agentRequest "POST" "/todos" none "Buy milk")).1
        = [] ++ [⟨1, "Buy milk", false⟩] :=
  have h := create_round_trip DB.empty (agentRequest "POST" "/todos" none "Buy milk") rfl
    (by decide)
  ⟨rfl, by decide, h.2.2.2.1 rfl, h.1⟩

/-! ## Toggle and delete -/

theorem matchesRow_fun (id : Int) (userID : String) :
    (fun row : Row => decide (row.id = id ∧ row.user_id = userID)) = matchesRow id userID := by
  funext row
  simp [matchesRow, Bool.decide_and]

theorem toggle_forall2 (id : Int) (userID : String) (rows : List Row) :
    List.Forall₂
      (fun x y : Row => y.id = x.id ∧ y.user_id = x.user_id ∧ y.description = x.description
        ∧ y.completed = (if x.id = id ∧ x.user_id = userID then !x.completed else x.completed))
      rows
      (rows.map fun row =>
        if matchesRow id userID row then { row with completed := !row.completed } else row) := by
  induction rows with
  | nil => exact List.Forall₂.nil
  | cons a rest ih =>
    refine List.Forall₂.cons ?_ ih
    by_cases hm : matchesRow id userID a = true
    · have := (matchesRow_iff id userID a).mp hm
      simp [hm, this]
    · have : ¬ (a.id = id ∧ a.user_id = userID) := fun e => hm ((matchesRow_iff id userID a).mpr e)
      simp [hm, this]

theorem toggle_toggle (db : DB) (id : Int) (userID : String) :
    (execToggle (execToggle db id userID).1 id userID).1 = db := by
  have : (db.rows.map ((fun row : Row =>
      if matchesRow id userID row then { row with completed := !row.completed } else row) ∘
      (fun row : Row =>
      if matchesRow id userID row then { row with completed := !row.completed } else row)))
      = db.rows := by
    conv_rhs => rw [← List.map_id db.rows]
    apply List.map_congr_left
    intro row _
    by_cases hm : matchesRow id userID row = true
    · have hm1 : matchesRow id userID { row with completed := !row.completed } = true := hm
      simp [hm, hm1]
    · simp [hm]
  simp only [execToggle, List.map_map, this]

theorem toggle_success_iff (db : DB) (id : Int) (userID : String) :
    (runAction db userID id "toggle").2 = true ↔
      ∃ row ∈ db.rows, row.id = id ∧ row.user_id = userID := by
  simp only [runAction, execToggle, if_true, decide_eq_true_eq, gt_iff_lt, List.length_pos,
    ne_eq, List.filter_eq_nil_iff, not_forall, Classical.not_not, matchesRow_iff]
  constructor
  · rintro ⟨row, h1, h2⟩; exact ⟨row, h1, h2⟩
  · rintro ⟨row, h1, h2⟩; exact ⟨row, h1, h2⟩

theorem runAction_toggle_store (db : DB) (id : Int) (userID : String) :
    (runAction db userID id "toggle").1 = (execToggle db id userID).1 := by
  simp [runAction]

theorem runAction_delete_store (db : DB) (id : Int) (userID : String) :
    (runAction db userID id "delete").1 = (execDelete db id userID).1 := by
  simp [runAction]

theorem runAction_toggle_success (db : DB) (id : Int) (userID : String) :
    (runAction db userID id "toggle").2
      = decide (0 < (db.rows.filter (matchesRow id userID)).length) := by
  simp [runAction, execToggle]

theorem delete_absent (db : DB) (id : Int) (userID : String) :
    (execDelete db id userID).1.rows.filter (matchesRow id userID) = [] := by
  simp only [execDelete, List.filter_filter, List.filter_eq_nil_iff]
  intro row _
  cases matchesRow id userID row <;> simp

/-- C4: in a store reached from the empty store, at most one row has the id and
owner of a toggle request; the request reports `success = true` exactly when
there is one; each row keeps its id, owner and description, the `completed` of
the row with that id and owner is negated and that of every other row is kept,
and the sequence counter is kept; when no row has that id and owner (the id is
absent or belongs to someone else) the store is unchanged. -/
theorem toggle_spec (calls : List Call) (r : Request)
    (hlen : 4 ≤ (stringsSplit r.Path).length) (hact : actionName r = "toggle") :
    ((run DB.empty calls).rows.filter fun row =>
        decide (row.id = actionID r ∧ row.user_id = (getUserID r).1)).length ≤ 1
    ∧ (r.agent = "true" → (handleTodoAction (run DB.empty calls) r).2.body
        = Body.agent (Envelope.action "toggle" (actionID r)
            (decide (((run DB.empty calls).rows.filter fun row =>
              decide (row.id = actionID r ∧ row.user_id = (getUserID r).1)).length = 1))))
    ∧ List.Forall₂
        (fun x y : Row => y.id = x.id ∧ y.user_id = x.user_id ∧ y.description = x.description
          ∧ y.completed = (if x.id = actionID r ∧ x.user_id = (getUserID r).1
              then !x.completed else x.completed))
        (run DB.empty calls).rows (handleTodoAction (run DB.empty calls) r).1.rows
    ∧ (handleTodoAction (run DB.empty calls) r).1.seq = (run DB.empty calls).seq
    ∧ (((run DB.empty calls).rows.filter fun row =>
          decide (row.id = actionID r ∧ row.user_id = (getUserID r).1)).length ≠ 1 →
        (handleTodoAction (run DB.empty calls) r).1 = run DB.empty calls) := by
  have hle := match_le_one (run DB.empty calls) (Inv_reachable calls).1 (actionID r)
    (getUserID r).1
  rw [matchesRow_fun]
  refine ⟨hle, ?_, ?_, ?_, ?_⟩
  · intro hagent
    rw [handleTodoAction_body _ r hlen hagent, hact, runAction_toggle_success]
    congr 2
    rw [decide_eq_decide]
    omega
  · rw [handleTodoAction_store _ r hlen, hact, runAction_toggle_store]
    exact toggle_forall2 _ _ _
  · rw [handleTodoAction_store _ r hlen, hact, runAction_toggle_store]
    rfl
  · intro hne
    have h0 : (run DB.empty calls).rows.filter (matchesRow (actionID r) (getUserID r).1) = [] := by
      apply List.eq_nil_of_length_eq_zero
      omega
    rw [handleTodoAction_store _ r hlen, runAction_no_match _ _ _ _ h0]

/-- Witness of C4: create an item, then toggle it. -/
theorem toggle_spec_witness :
    4 ≤ (stringsSplit (agentRequest "POST" "/todos/1/toggle" (some "alice") "").Path).length
    ∧ actionName (agentRequest "POST" "/todos/1/toggle" (some "alice") "") = "toggle"
    ∧ run DB.empty [createAlice] = storeAlice
    ∧ (handleTodoAction (run DB.empty [createAlice])
          (agentRequest "POST" "/todos/1/toggle" (some "alice") "")).2.body
        = Body.agent (Envelope.action "toggle" 1 true)
    ∧ (handleTodoAction (run DB.empty [createAlice])
          (agentRequest "POST" "/todos/1/toggle" (some "alice") "")).1.rows
        = [⟨1, "alice", "a", true⟩] :=
  have h := toggle_spec [createAlice] (agentRequest "POST" "/todos/1/toggle" (some "alice") "")
    (by decide) (by decide)
  ⟨by decide, by decide, by decide, h.2.1 rfl, by decide⟩

/-- C5: two toggle requests in a row with the same owner and id give back the
original store; when a row with that id and owner exists, both requests report
`success = true`; the first request negates the `completed` of that row and
keeps everything else, so an item just created with `completed = false` is
stored with `completed = true` after it. -/
theorem toggle_involution (db : DB) (r1 r2 : Request)
    (hlen1 : 4 ≤ (stringsSplit r1.Path).length) (hact1 : actionName r1 = "toggle")
    (hlen2 : 4 ≤ (stringsSplit r2.Path).length) (hact2 : actionName r2 = "toggle")
    (howner : (getUserID r2).1 = (getUserID r1).1) (hid : actionID r2 = actionID r1) :
    (handleTodoAction (handleTodoAction db r1).1 r2).1 = db
    ∧ ((∃ row ∈ db.rows, row.id = actionID r1 ∧ row.user_id = (getUserID r1).1) →
        (r1.agent = "true" → (handleTodoAction db r1).2.body
          = Body.agent (Envelope.action "toggle" (actionID r1) true))
        ∧ (r2.agent = "true" → (handleTodoAction (handleTodoAction db r1).1 r2).2.body
          = Body.agent (Envelope.action "toggle" (actionID r1) true)))
    ∧ List.Forall₂
        (fun x y : Row => y.id = x.id ∧ y.user_id = x.user_id ∧ y.description = x.description
          ∧ y.completed = (if x.id = actionID r1 ∧ x.user_id = (getUserID r1).1
              then !x.completed else x.completed))
        db.rows (handleTodoAction db r1).1.rows
    ∧ (∀ rc : Request, rc.Method = "POST" → (getUserID rc).1 = (getUserID r1).1 →
        actionID r1 = nextRowid db →
        ({ id := nextRowid db, user_id := (getUserID r1).1, description := rc.description,
           completed := true } : Row) ∈ (handleTodoAction (handleTodos db rc).1 r1).1.rows) := by
  refine ⟨?_, ?_, ?_, ?_⟩
  · rw [handleTodoAction_store _ r2 hlen2, handleTodoAction_store _ r1 hlen1, hact1, hact2,
      howner, hid, runAction_toggle_store, runAction_toggle_store]
    exact toggle_toggle db _ _
  · rintro ⟨row, hmem, hrid, hru⟩
    refine ⟨?_, ?_⟩
    · intro hagent
      rw [handleTodoAction_body _ r1 hlen1 hagent, hact1]
      rw [(toggle_success_iff db _ _).mpr ⟨row, hmem, hrid, hru⟩]
    · intro hagent
      rw [handleTodoAction_body _ r2 hlen2 hagent, hact2, howner, hid,
        handleTodoAction_store _ r1 hlen1, hact1, runAction_toggle_store]
      have hm : matchesRow (actionID r1) (getUserID r1).1 row = true :=
        (matchesRow_iff _ _ _).mpr ⟨hrid, hru⟩
      have : ∃ x ∈ (execToggle db (actionID r1) (getUserID r1).1).1.rows,
          x.id = actionID r1 ∧ x.user_id = (getUserID r1).1 := by
        refine ⟨{ row with completed := !row.completed }, ?_, hrid, hru⟩
        simp only [execToggle, List.mem_map]
        exact ⟨row, hmem, by simp [hm]⟩
      rw [(toggle_success_iff _ _ _).mpr this]
  · rw [handleTodoAction_store _ r1 hlen1, hact1, runAction_toggle_store]
    exact toggle_forall2 _ _ _
  · intro rc hpost hu hrid
    have hroom : nextRowid db ≤ 2 ^ 63 - 1 := by
      rw [← hrid]; exact Atoi_le _
    rw [handleTodoAction_store _ r1 hlen1, hact1, runAction_toggle_store,
      handleTodos_store_post db rc hpost, execInsert_room db _ _ hroom, hu, hrid]
    simp only [execToggle, List.mem_map]
    refine ⟨{ id := nextRowid db, user_id := (getUserID r1).1, description := rc.description,
              completed := false }, by simp, ?_⟩
    simp [matchesRow]

/-- Witness of C5: the scenario of two `POST /todos/1/toggle` by the same owner. -/
theorem toggle_involution_witness :
    4 ≤ (stringsSplit (agentRequest "POST" "/todos/1/toggle" (some "alice") "").Path).length
    ∧ actionName (agentRequest "POST" "/todos/1/toggle" (some "alice") "") = "toggle"
    ∧ (handleTodoAction
          (handleTodoAction storeAlice
            (agentRequest "POST" "/todos/1/toggle" (some "alice") "")).1
          (agentRequest "POST" "/todos/1/toggle" (some "alice") "")).1 = storeAlice
    ∧ (handleTodoAction storeAlice
          (agentRequest "POST" "/todos/1/toggle" (some "alice") "")).1.rows
        = [⟨1, "alice", "a", true⟩]
    ∧ (handleTodoAction
          (handleTodoAction storeAlice
            (agentRequest "POST" "/todos/1/toggle" (some "alice") "")).1
          (agentRequest "POST" "/todos/1/toggle" (some "alice") "")).2.body
        = Body.agent (Envelope.action "toggle" 1 true) :=
  have h := toggle_involution storeAlice
    (agentRequest "POST" "/todos/1/toggle" (some "alice") "")
    (agentRequest "POST" "/todos/1/toggle" (some "alice") "")
    (by decide) (by decide) (by decide) (by decide) rfl rfl
  ⟨by decide, by decide, h.1, by decide,
   (h.2.1 ⟨⟨1, "alice", "a", false⟩, by decide, by decide, rfl⟩).2 rfl⟩

/-- C6: a delete request for an id and owner that no row has reports
`success = false` and leaves the store unchanged; after any delete request no
row has that id and owner, the other rows are kept, and a second delete request
with the same owner and id reports `success = false` and leaves the store
unchanged. -/
theorem delete_repeatable (db : DB) (r1 r2 : Request)
    (hlen1 : 4 ≤ (stringsSplit r1.Path).length) (hact1 : actionName r1 = "delete")
    (hlen2 : 4 ≤ (stringsSplit r2.Path).length) (hact2 : actionName r2 = "delete")
    (howner : (getUserID r2).1 = (getUserID r1).1) (hid : actionID r2 = actionID r1) :
    ((∀ row ∈ db.rows, ¬ (row.id = actionID r1 ∧ row.user_id = (getUserID r1).1)) →
        (handleTodoAction db r1).1 = db
        ∧ (r1.agent = "true" → (handleTodoAction db r1).2.body
            = Body.agent (Envelope.action "delete" (actionID r1) false)))
    ∧ (∀ row, row ∈ (handleTodoAction db r1).1.rows ↔
        row ∈ db.rows ∧ ¬ (row.id = actionID r1 ∧ row.user_id = (getUserID r1).1))
    ∧ (handleTodoAction (handleTodoAction db r1).1 r2).1 = (handleTodoAction db r1).1
    ∧ (r2.agent = "true" → (handleTodoAction (handleTodoAction db r1).1 r2).2.body
        = Body.agent (Envelope.action "delete" (actionID r1) false)) := by
  have hgone : (handleTodoAction db r1).1.rows.filter
      (matchesRow (actionID r1) (getUserID r1).1) = [] := by
    rw [handleTodoAction_store _ r1 hlen1, hact1, runAction_delete_store]
    exact delete_absent db _ _
  refine ⟨?_, ?_, ?_, ?_⟩
  · intro hno
    have h0 : db.rows.filter (matchesRow (actionID r1) (getUserID r1).1) = [] := by
      rw [List.filter_eq_nil_iff]
      intro row hrow hm
      exact hno row hrow ((matchesRow_iff _ _ _).mp hm)
    refine ⟨?_, ?_⟩
    · rw [handleTodoAction_store _ r1 hlen1, runAction_no_match _ _ _ _ h0]
    · intro hagent
      rw [handleTodoAction_body _ r1 hlen1 hagent, runAction_no_match _ _ _ _ h0, hact1]
  · intro row
    rw [handleTodoAction_store _ r1 hlen1, hact1, runAction_delete_store]
    simp only [execDelete, List.mem_filter, Bool.not_eq_true', ← matchesRow_iff]
    simp
  · rw [handleTodoAction_store _ r2 hlen2, howner, hid, runAction_no_match _ _ _ _ hgone]
  · intro hagent
    rw [handleTodoAction_body _ r2 hlen2 hagent, howner, hid,
      runAction_no_match _ _ _ _ hgone, hact2]

/-- Witness of C6: the scenario `POST /todos/99/delete` for an id that no row
has, twice. -/
theorem delete_repeatable_witness :
    4 ≤ (stringsSplit (agentRequest "POST" "/todos/99/delete" (some "alice") "").Path).length
    ∧ actionName (agentRequest "POST" "/todos/99/delete" (some "alice") "") = "delete"
    ∧ (handleTodoAction storeAlice
          (agentRequest "POST" "/todos/99/delete" (some "alice") "")).2.body
        = Body.agent (Envelope.action "delete" 99 false)
    ∧ (handleTodoAction
          (handleTodoAction storeAlice
            (agentRequest "POST" "/todos/99/delete" (some "alice") "")).1
          (agentRequest "POST" "/todos/99/delete" (some "alice") "")).2.body
        = Body.agent (Envelope.action "delete" 99 false) :=
  have h := delete_repeatable storeAlice
    (agentRequest "POST" "/todos/99/delete" (some "alice") "")
    (agentRequest "POST" "/todos/99/delete" (some "alice") "")
    (by decide) (by decide) (by decide) (by decide) rfl rfl
  ⟨by decide, by decide, (h.1 (by decide)).2 rfl, h.2.2.2 rfl⟩

/-! ## Ids that do not parse -/

/-- C7, as stated, fails: the token `9223372036854775808` does not parse as an
`int` (range error), yet the id the handler proceeds with, and the id in the
agent envelope, is `9223372036854775807`, not 0. -/
theorem range_error_id_not_zero :
    Atoi "9223372036854775808" = (9223372036854775807, some NumError.ErrRange)
    ∧ actionID (agentRequest "POST" "/todos/9223372036854775808/toggle" (some "alice") "")
        = 9223372036854775807
    ∧ (handleTodoAction DB.empty
          (agentRequest "POST" "/todos/9223372036854775808/toggle" (some "alice") "")).2.body
        = Body.agent (Envelope.action "toggle" 9223372036854775807 false)
    ∧ (handleTodoAction DB.empty
          (agentRequest "POST" "/todos/9223372036854775808/toggle" (some "alice") "")).2.body
        ≠ Body.agent (Envelope.action "toggle" 0 false) := by
  refine ⟨by decide, by decide, by decide, by decide⟩

/-- C7, amended: for a path `/todos/{tok}/{act}` whose token `tok` is a syntax
error for `strconv.Atoi` (such as `abc`), `handleTodoAction` proceeds with id 0
and action `act`; in every store reached from the empty store no row has id 0,
so the store is unchanged and the agent envelope is
`{"action": act, "id": 0, "success": false}`, for toggle, delete and any other
action. -/
theorem malformed_id_is_miss (calls : List Call) (r : Request) (tok act : String)
    (hpath : r.Path = "/todos/" ++ tok ++ "/" ++ act)
    (htok : '/' ∉ tok.data) (hact : '/' ∉ act.data)
    (hsyn : (Atoi tok).2 = some NumError.ErrSyntax) :
    actionID r = 0
    ∧ actionName r = act
    ∧ (∀ row ∈ (run DB.empty calls).rows, row.id ≠ 0)
    ∧ (handleTodoAction (run DB.empty calls) r).1 = run DB.empty calls
    ∧ (r.agent = "true" → (handleTodoAction (run DB.empty calls) r).2.body
        = Body.agent (Envelope.action act 0 false)) := by
  have hparts := stringsSplit_action_path tok act htok hact
  have hlen : 4 ≤ (stringsSplit r.Path).length := by rw [hpath, hparts]; simp
  have hid : actionID r = 0 := by
    unfold actionID
    rw [hpath, hparts]
    exact Atoi_syntaxError tok hsyn
  have hname : actionName r = act := by
    unfold actionName
    rw [hpath, hparts]
    rfl
  have hpos : ∀ row ∈ (run DB.empty calls).rows, row.id ≠ 0 := by
    intro row hrow
    have := ((Inv_reachable calls).2 row hrow).1
    omega
  have h0 : (run DB.empty calls).rows.filter (matchesRow 0 (getUserID r).1) = [] := by
    rw [List.filter_eq_nil_iff]
    intro row hrow hm
    exact hpos row hrow ((matchesRow_iff _ _ _).mp hm).1
  refine ⟨hid, hname, hpos, ?_, ?_⟩
  · rw [handleTodoAction_store _ r hlen, hid, runAction_no_match _ _ _ _ h0]
  · intro hagent
    rw [handleTodoAction_body _ r hlen hagent, hid, hname, runAction_no_match _ _ _ _ h0]

/-- Witness of C7 amended: `POST /todos/abc/delete` after one create. -/
theorem malformed_id_is_miss_witness :
    (Atoi "abc").2 = some NumError.ErrSyntax
    ∧ (agentRequest "POST" "/todos/abc/delete" (some "alice") "").Path
        = "/todos/" ++ "abc" ++ "/" ++ "delete"
    ∧ (handleTodoAction (run DB.empty [createAlice])
          (agentRequest "POST" "/todos/abc/delete" (some "alice") "")).1
        = run DB.empty [createAlice]
    ∧ (handleTodoAction (run DB.empty [createAlice])
          (agentRequest "POST" "/todos/abc/delete" (some "alice") "")).2.body
        = Body.agent (Envelope.action "delete" 0 false) :=
  have h := malformed_id_is_miss [createAlice]
    (agentRequest "POST" "/todos/abc/delete" (some "alice") "") "abc" "delete"
    (by decide) (by decide) (by decide) (by decide)
  ⟨by decide, by decide, h.2.2.2.1, h.2.2.2.2 rfl⟩

/-! ## The index page -/

theorem hexEncode_length (bytes : List Nat) : (hexEncode bytes).length = 2 * bytes.length := by
  unfold hexEncode
  rw [String.length_mk]
  induction bytes with
  | nil => rfl
  | cons b rest ih =>
    simp only [List.flatMap_cons, List.length_append, List.length_cons, List.length_nil, ih]
    omega

/-- A request without the cookie gets an owner identifier of 32 characters. -/
theorem getUserID_fresh_length (r : Request) (h : r.cookie = none) :
    (getUserID r).1.length = 32 := by
  unfold getUserID
  rw [h]
  simp [hexEncode_length]

/-- With an owner identifier of at least 8 characters the page is rendered, with
the first 8 characters as session indicator. -/
theorem handleIndex_long_id (db : DB) (r : Request) (hmode : r.agent ≠ "true")
    (hlen : 8 ≤ (getUserID r).1.length) :
    handleIndex db r = Except.ok
      { setCookie := (getUserID r).2,
        body := Body.page (String.mk ((getUserID r).1.data.take 8))
          (getTodos db (getUserID r).1) } := by
  unfold handleIndex
  simp [hmode, hlen]

/-- C8 fails on the code: for `GET /` in human mode with the cookie
`user_id=abc`, the owner identifier is `abc` and `handleIndex` panics on
`userID[:8]` (slice bounds out of range `[:8]` with length 3); no page is
rendered. -/
theorem handleIndex_short_cookie_panics :
    (getUserID (humanRequest "GET" "/" (some "abc"))).1 = "abc"
    ∧ handleIndex DB.empty (humanRequest "GET" "/" (some "abc"))
        = Except.error (Panic.sliceBounds 8 3) :=
  ⟨rfl, rfl⟩

/-! ## Descriptions -/

theorem step_provenance (db : DB) (c : Call) (row : Row) (h : row ∈ (step db c).rows) :
    (∃ row0 ∈ db.rows, row0.description = row.description ∧ row0.user_id = row.user_id)
    ∨ ∃ r, c = Call.todos r ∧ r.Method = "POST" ∧ row.description = r.description
        ∧ row.user_id = (getUserID r).1 := by
  cases c with
  | index r => exact Or.inl ⟨row, h, rfl, rfl⟩
  | todos r =>
    simp only [step] at h
    by_cases hpost : r.Method = "POST"
    · rw [handleTodos_store_post db r hpost] at h
      by_cases hfull : nextRowid db > 2 ^ 63 - 1
      · rw [execInsert_full db _ _ hfull] at h
        exact Or.inl ⟨row, h, rfl, rfl⟩
      · rw [execInsert_room db _ _ (not_lt.mp hfull)] at h
        simp only [List.mem_append, List.mem_singleton] at h
        rcases h with h | rfl
        · exact Or.inl ⟨row, h, rfl, rfl⟩
        · exact Or.inr ⟨r, rfl, hpost, rfl, rfl⟩
    · rw [handleTodos_store_other db r hpost] at h
      exact Or.inl ⟨row, h, rfl, rfl⟩
  | todoAction r =>
    simp only [step] at h
    left
    by_cases hlen : 4 ≤ (stringsSplit r.Path).length
    · rw [handleTodoAction_store db r hlen] at h
      unfold runAction at h
      by_cases h1 : actionName r = "toggle"
      · simp only [h1, if_true, execToggle, List.mem_map] at h
        obtain ⟨x, hx, rfl⟩ := h
        refine ⟨x, hx, ?_, ?_⟩ <;>
          by_cases hm : matchesRow (actionID r) (getUserID r).1 x = true <;> simp [hm]
      · by_cases h2 : actionName r = "delete"
        · simp only [h1, h2, if_true, if_false, execDelete] at h
          exact ⟨row, List.mem_of_mem_filter h, rfl, rfl⟩
        · simp only [h1, h2, if_false] at h
          exact ⟨row, h, rfl, rfl⟩
    · rw [handleTodoAction_store_short db r (by omega)] at h
      exact ⟨row, h, rfl, rfl⟩

theorem run_provenance (calls : List Call) : ∀ (db : DB) (row : Row),
    row ∈ (run db calls).rows →
    (∃ row0 ∈ db.rows, row0.description = row.description ∧ row0.user_id = row.user_id)
    ∨ ∃ r, Call.todos r ∈ calls ∧ r.Method = "POST" ∧ row.description = r.description
        ∧ row.user_id = (getUserID r).1 := by
  induction calls with
  | nil => intro db row h; exact Or.inl ⟨row, h, rfl, rfl⟩
  | cons c rest ih =>
    intro db row h
    rcases ih (step db c) row h with ⟨row0, h0, hd, hu⟩ | ⟨r, hr, hp, hd, hu⟩
    · rcases step_provenance db c row0 h0 with ⟨row1, h1, hd1, hu1⟩ | ⟨r, rfl, hp, hd1, hu1⟩
      · exact Or.inl ⟨row1, h1, hd1.trans hd, hu1.trans hu⟩
      · exact Or.inr ⟨r, List.mem_cons_self _ _, hp, hd.symm.trans hd1, hu.symm.trans hu1⟩
    · exact Or.inr ⟨r, List.mem_cons_of_mem _ hr, hp, hd, hu⟩

/-- C9, as stated, fails: `POST /todos` with an empty form value `description`
on the empty store stores a todo whose description is the empty string. -/
theorem empty_description_stored :
    (run DB.empty [Call.todos (agentRequest "POST" "/todos" (some "alice") "")]).rows
      = [⟨1, "alice", "", false⟩]
    ∧ ∃ row ∈ (run DB.empty
          [Call.todos (agentRequest "POST" "/todos" (some "alice") "")]).rows,
        row.description = "" :=
  ⟨by decide, ⟨1, "alice", "", false⟩, by decide, rfl⟩

/-- C9, amended: in every store reached from the empty store, the description
of every stored todo is the form value `description` of a `POST /todos`
request handled before, whatever that value is, and its owner is the owner of
that request: the create handler stores the value as it is and toggle and
delete never change it. -/
theorem description_is_posted_value (calls : List Call) (row : Row)
    (h : row ∈ (run DB.empty calls).rows) :
    ∃ r, Call.todos r ∈ calls ∧ r.Method = "POST" ∧ row.description = r.description
      ∧ row.user_id = (getUserID r).1 := by
  rcases run_provenance calls DB.empty row h with ⟨row0, h0, _⟩ | h1
  · simp [DB.empty] at h0
  · exact h1

/-- Witness of C9 amended: the row stored by a create with an empty description. -/
theorem description_is_posted_value_witness :
    (⟨1, "alice", "", false⟩ : Row)
      ∈ (run DB.empty [Call.todos (agentRequest "POST" "/todos" (some "alice") "")]).rows
    ∧ ∃ r, Call.todos r ∈ [Call.todos (agentRequest "POST" "/todos" (some "alice") "")]
        ∧ r.Method = "POST" ∧ (⟨1, "alice", "", false⟩ : Row).description = r.description
        ∧ (⟨1, "alice", "", false⟩ : Row).user_id = (getUserID r).1 :=
  ⟨by decide,
   description_is_posted_value [Call.todos (agentRequest "POST" "/todos" (some "alice") "")]
     ⟨1, "alice", "", false⟩ (by decide)⟩

/-! ## The method of an action request -/

/-- What `handleTodoAction` does with the request `r` sent with the method `m`. -/
theorem handleTodoAction_with_method (db : DB) (r : Request) (m : String) :
    handleTodoAction db { r with Method := m }
      = if (stringsSplit r.Path).length < 4 then
          (db, { setCookie := (getUserID r).2, body := Body.invalidPath })
        else if r.agent = "true" then
          ((runAction db (getUserID r).1 (actionID r) (actionName r)).1,
           { setCookie := (getUserID r).2,
             body := Body.agent (Envelope.action (actionName r) (actionID r)
               (runAction db (getUserID r).1 (actionID r) (actionName r)).2) })
        else
          ((runAction db (getUserID r).1 (actionID r) (actionName r)).1,
           { setCookie := (getUserID r).2,
             body := Body.redirect (decide (m = "GET" ∨ m = "HEAD")) (decide (m = "GET")) }) := by
  by_cases hl : (stringsSplit r.Path).length < 4
  · simp only [hl, if_true]
    unfold handleTodoAction
    simp only [hl, if_true]
    rfl
  · by_cases hagent : r.agent = "true"
    · simp only [hl, hagent, if_true, if_false]
      unfold handleTodoAction
      simp only [hl, hagent, if_true, if_false]
      rfl
    · simp only [hl, hagent, if_false]
      unfold handleTodoAction
      simp only [hl, hagent, if_false]
      rfl

/-- C10, as stated, fails: in human mode a `GET` and a `POST` that differ only
in the method get different responses from `handleTodoAction`: the redirect
written for `GET` has a content type and an HTML body, the one written for
`POST` has neither.  The resulting stores are equal. -/
theorem redirect_depends_on_method :
    { humanRequest "POST" "/todos/1/toggle" (some "alice") with Method := "GET" }
      = humanRequest "GET" "/todos/1/toggle" (some "alice")
    ∧ (handleTodoAction storeAlice (humanRequest "GET" "/todos/1/toggle" (some "alice"))).2
        = { setCookie := none, body := Body.redirect true true }
    ∧ (handleTodoAction storeAlice (humanRequest "POST" "/todos/1/toggle" (some "alice"))).2
        = { setCookie := none, body := Body.redirect false false }
    ∧ (handleTodoAction storeAlice (humanRequest "GET" "/todos/1/toggle" (some "alice"))).2
        ≠ (handleTodoAction storeAlice
            (humanRequest "POST" "/todos/1/toggle" (some "alice"))).2
    ∧ (handleTodoAction storeAlice (humanRequest "GET" "/todos/1/toggle" (some "alice"))).1
        = (handleTodoAction storeAlice
            (humanRequest "POST" "/todos/1/toggle" (some "alice"))).1 :=
  ⟨rfl, by decide, by decide, by decide, by decide⟩

/-- C10, amended: `handleTodoAction` reads the method only through
`http.Redirect`.  Two requests that differ only in `Method` give the same
store, so `GET` on `/todos/{id}/toggle` or `/todos/{id}/delete` changes the
owner's matching row as `POST` does, and they set the same cookie; in agent
mode and on a malformed path the whole response is the same; in human mode
both are the redirect to `/`, which carries the content type for `GET` and
`HEAD` and the HTML body for `GET` only. -/
theorem handleTodoAction_method (db : DB) (r : Request) (m1 m2 : String) :
    (handleTodoAction db { r with Method := m1 }).1
      = (handleTodoAction db { r with Method := m2 }).1
    ∧ (handleTodoAction db { r with Method := m1 }).2.setCookie
      = (handleTodoAction db { r with Method := m2 }).2.setCookie
    ∧ (r.agent = "true" →
        handleTodoAction db { r with Method := m1 }
          = handleTodoAction db { r with Method := m2 })
    ∧ ((stringsSplit r.Path).length < 4 →
        handleTodoAction db { r with Method := m1 }
          = handleTodoAction db { r with Method := m2 })
    ∧ (r.agent ≠ "true" → 4 ≤ (stringsSplit r.Path).length →
        (handleTodoAction db { r with Method := m1 }).2.body
          = Body.redirect (decide (m1 = "GET" ∨ m1 = "HEAD")) (decide (m1 = "GET")))
    ∧ (handleTodoAction storeAlice
          (agentRequest "GET" "/todos/1/delete" (some "alice") "")).1.rows = []
    ∧ handleTodoAction storeAlice (agentRequest "GET" "/todos/1/toggle" (some "alice") "")
        = ({ rows := [⟨1, "alice", "a", true⟩], seq := 1 },
           { setCookie := none, body := Body.agent (Envelope.action "toggle" 1 true) }) := by
  have key := handleTodoAction_with_method db r
  refine ⟨?_, ?_, ?_, ?_, ?_, by decide, by decide⟩
  · rw [key m1, key m2]
    by_cases hl : (stringsSplit r.Path).length < 4
    · simp only [hl, if_true]
    · by_cases hagent : r.agent = "true" <;> simp only [hl, hagent, if_true, if_false]
  · rw [key m1, key m2]
    by_cases hl : (stringsSplit r.Path).length < 4
    · simp only [hl, if_true]
    · by_cases hagent : r.agent = "true" <;> simp only [hl, hagent, if_true, if_false]
  · intro hagent
    rw [key m1, key m2]
    by_cases hl : (stringsSplit r.Path).length < 4
    · simp only [hl, if_true]
    · simp only [hl, hagent, if_true, if_false]
  · intro hl
    rw [key m1, key m2]
    simp only [hl, if_true]
  · intro hagent hlen
    have hl : ¬ (stringsSplit r.Path).length < 4 := by omega
    rw [key m1]
    simp only [hl, hagent, if_false]

/-- Witness of C10 amended: `GET` and `POST` on `/todos/1/toggle`, in agent
mode and in human mode. -/
theorem handleTodoAction_method_witness :
    (agentRequest "GET" "/todos/1/toggle" (some "alice") "").agent = "true"
    ∧ (humanRequest "GET" "/todos/1/toggle" (some "alice")).agent ≠ "true"
    ∧ 4 ≤ (stringsSplit (humanRequest "GET" "/todos/1/toggle" (some "alice")).Path).length
    ∧ handleTodoAction storeAlice
          { agentRequest "GET" "/todos/1/toggle" (some "alice") "" with Method := "GET" }
        = handleTodoAction storeAlice
          { agentRequest "GET" "/todos/1/toggle" (some "alice") "" with Method := "POST" }
    ∧ (handleTodoAction storeAlice
          { humanRequest "GET" "/todos/1/toggle" (some "alice") with Method := "POST" }).2.body
        = Body.redirect (decide ("POST" = "GET" ∨ "POST" = "HEAD")) (decide ("POST" = "GET")) :=
  have h1 := handleTodoAction_method storeAlice
    (agentRequest "GET" "/todos/1/toggle" (some "alice") "") "GET" "POST"
  have h2 := handleTodoAction_method storeAlice
    (humanRequest "GET" "/todos/1/toggle" (some "alice")) "POST" "GET"
  ⟨rfl, by decide, by decide, h1.2.2.1 rfl, h2.2.2.2.2.1 (by decide) (by decide)⟩

end TodoServer
